import Mathlib

/-
Verification of the gcplog formatter (`parseGCPLogsEntry` in
component/loki/source/gcplog/internal/gcplogtarget/formatter.go).

The Go function and the library operations it calls (prometheus
labels.Builder, relabel.Process, model.LabelSet and validity checks,
strings.TrimSpace) are shallow-embedded below. Go strings are modelled as
Lean strings (sequences of Unicode scalar values), Go maps as association
lists in iteration order, `time.Time` as an instant with an `isZero` test,
and the external json decoder / RFC3339 parser / wall clock as explicit
function parameters.
-/

set_option autoImplicit false

namespace Gcplog

/-- A single label (name/value pair), as in prometheus `model/labels`. -/
structure Label where
  name : String
  value : String
deriving DecidableEq, Repr

/-- Names of a label list. -/
def labelNames (ls : List Label) : List String := ls.map Label.name

/-- prometheus `labels.Builder`: base labels plus pending deletions and additions. -/
structure Builder where
  base : List Label
  del : List String
  add : List Label
deriving DecidableEq, Repr

/-- prometheus `labels.NewBuilder`: `Reset` records base labels with empty value as
deleted (empty labels are the same as missing labels). -/
def Builder.new (base : List Label) : Builder :=
  ⟨base, (base.filter (fun l => l.value == "")).map Label.name, []⟩

/-- prometheus `labels.Builder.Del`: drop the name from the pending additions and
record it as deleted. -/
def Builder.delete (b : Builder) (n : String) : Builder :=
  ⟨b.base, b.del ++ [n], b.add.filter (fun a => a.name != n)⟩

/-- Loop body of `labels.Builder.Set`: update the first pending addition with the
given name in place, else append. -/
def setAdd : List Label → String → String → List Label
  | [], n, v => [⟨n, v⟩]
  | a :: as, n, v => if a.name = n then ⟨n, v⟩ :: as else a :: setAdd as n v

/-- prometheus `labels.Builder.Set`: setting an empty value is the same as
deleting the label. -/
def Builder.set (b : Builder) (n v : String) : Builder :=
  if v = "" then b.delete n else ⟨b.base, b.del, setAdd b.add n v⟩

/-- Insertion into a name-ordered label list; models `sort.Sort` with
`Labels.Less` comparing names. -/
def insertSorted (l : Label) : List Label → List Label
  | [] => [l]
  | x :: xs => if l.name ≤ x.name then l :: x :: xs else x :: insertSorted l xs

/-- Sorting of a label list by name. -/
def sortLabels (ls : List Label) : List Label := ls.foldr insertSorted []

/-- prometheus `labels.Builder.Labels`: keep base labels that are neither deleted
nor re-added, then append the additions and sort. -/
def Builder.labels (b : Builder) : List Label :=
  if b.del.isEmpty && b.add.isEmpty then b.base
  else
    let res := b.base.filter
      (fun l => !(b.del.contains l.name) && !(b.add.any (fun a => a.name == l.name)))
    if b.add.isEmpty then res else sortLabels (res ++ b.add)

/-- prometheus `model.LabelSet`: a Go string map, modelled as an association list. -/
abbrev LabelSet := List (String × String)

/-- Go map assignment `m[k] = v` on an association list: overwrite the matching
entry, else append. -/
def lsInsert : LabelSet → String → String → LabelSet
  | [], k, v => [(k, v)]
  | p :: rest, k, v => if p.1 = k then (k, v) :: rest else p :: lsInsert rest k v

/-- Go map lookup `m[k]`. -/
def lsGet : LabelSet → String → Option String
  | [], _ => none
  | p :: rest, k => if p.1 = k then some p.2 else lsGet rest k

/-- Keys of a label set. -/
def lsKeys (m : LabelSet) : List String := m.map Prod.fst

/-- prometheus `model.LabelSet.Merge`: copy the receiver, then overwrite with the
argument, so the argument wins on common keys. -/
def lsMerge (l other : LabelSet) : LabelSet :=
  other.foldl (fun acc kv => lsInsert acc kv.1 kv.2) l

/-- Character test of `model.LabelName.IsValid` (legacy name scheme): letters,
underscore, and digits not in first position. -/
def labelNameCharOk (c : Char) (first : Bool) : Bool :=
  (decide ('a' ≤ c) && decide (c ≤ 'z')) || (decide ('A' ≤ c) && decide (c ≤ 'Z')) ||
    c == '_' || ((decide ('0' ≤ c) && decide (c ≤ '9')) && !first)

/-- prometheus `model.LabelName.IsValid`: nonempty and every character admissible. -/
def labelNameIsValid (s : String) : Bool :=
  match s.data with
  | [] => false
  | c :: cs => labelNameCharOk c true && cs.all (fun c => labelNameCharOk c false)

/-- prometheus `model.LabelValue.IsValid` is `utf8.ValidString`; Lean strings are
sequences of Unicode scalar values, so every modelled value is valid. -/
def labelValueIsValid (_ : String) : Bool := true

/-- Go `strings.HasPrefix s p`: the characters of p open the characters of s
(byte inclusion and character inclusion agree on the modelled strings). -/
def goStartsWith (s p : String) : Bool := p.data.isPrefixOf s.data

/-- Go `unicode.IsSpace`: ASCII white space and the Unicode White Space property. -/
def goIsSpace (c : Char) : Bool :=
  let n := c.toNat
  n == 9 || n == 10 || n == 11 || n == 12 || n == 13 || n == 32 ||
    n == 0x85 || n == 0xA0 || n == 0x1680 ||
    (decide (0x2000 ≤ n) && decide (n ≤ 0x200A)) ||
    n == 0x2028 || n == 0x2029 || n == 0x202F || n == 0x205F || n == 0x3000

/-- Go `strings.TrimSpace`: drop leading and trailing white space. -/
def trimSpace (s : String) : String :=
  ⟨((s.data.dropWhile goIsSpace).reverse.dropWhile goIsSpace).reverse⟩

/-- Modelled from the spec: `convertToLokiCompatibleLabel` is defined elsewhere in
the gcplogtarget package (not among the sources here). Per the spec's sanitizer
contract and design note, every character outside [A-Za-z0-9_] is replaced
by an underscore. -/
def convertToLokiCompatibleLabel (label : String) : String :=
  ⟨label.data.map (fun c =>
    if (decide ('a' ≤ c) && decide (c ≤ 'z')) || (decide ('A' ≤ c) && decide (c ≤ 'Z')) ||
       (decide ('0' ≤ c) && decide (c ≤ '9')) || c == '_' then c else '_')⟩

/-- Go `time.Time`, reduced to an instant: seconds and nanoseconds since the zero
time (January 1, year 1). The zero value is the zero time. -/
structure GoTime where
  sec : Int
  nsec : Int
deriving DecidableEq, Repr

/-- Go `time.Time.IsZero`: the instant is the zero time. -/
def GoTime.isZero (t : GoTime) : Bool := t.sec == 0 && t.nsec == 0

/-- Error kinds of `parseGCPLogsEntry`: the `json.Unmarshal` error, the wrapped
"invalid timestamp format" error, and the "no timestamp found in the log entry"
error. The function has no further failure kinds and in particular no
drop-signal kind. -/
inductive FormatterError where
  | decodeError
  | invalidTimestampFormat
  | noTimestampFound
deriving DecidableEq, Repr

/-- `loki.Entry`: the label set plus a `logproto.Entry` (timestamp and line). -/
structure LokiEntry where
  labels : LabelSet
  timestamp : GoTime
  line : String
deriving DecidableEq, Repr

/-- Resource part of `GCPLogEntry`. -/
structure GCPResource where
  type : String
  labels : List (String × String)
deriving DecidableEq, Repr

/-- `GCPLogEntry` with the fields the formatter extracts; the two string maps are
modelled as association lists in iteration order. -/
structure GCPLogEntry where
  logName : String
  resource : GCPResource
  timestamp : String
  receiveTimestamp : String
  severity : String
  labels : List (String × String)
  textPayload : String
deriving DecidableEq, Repr

/-- One compiled relabel rule, as an opaque transformation of the current label
list; `none` signals that the whole record is dropped (external library
semantics, treated as a black box). -/
def RelabelCfg := List Label → Option (List Label)

/-- Sequential application of the relabel rules, stopping at a drop. -/
def relabelApplyAll : List RelabelCfg → List Label → Option (List Label)
  | [], lbls => some lbls
  | c :: cs, lbls =>
    match c lbls with
    | none => none
    | some l => relabelApplyAll cs l

/-- prometheus `relabel.Process`: returns the relabeled list and a keep flag; on a
drop it returns (nil, false). -/
def relabelProcess (lbls : List Label) (cfgs : List RelabelCfg) : List Label × Bool :=
  match relabelApplyAll cfgs lbls with
  | none => ([], false)
  | some l => (l, true)

/-- Label assembly of `parseGCPLogsEntry` (formatter.go lines 60-73): the mandatory
internal labels, then the resource labels, then the entry labels, all via
`Builder.Set` on top of the incoming internal labels. -/
def assembleBuilder (ge : GCPLogEntry) (otherInternal : List Label) : Builder :=
  let lbs := Builder.new otherInternal
  let lbs := lbs.set "__gcp_logname" ge.logName
  let lbs := lbs.set "__gcp_resource_type" ge.resource.type
  let lbs := lbs.set "__gcp_severity" ge.severity
  let lbs := ge.resource.labels.foldl
    (fun b kv => b.set ("__gcp_resource_labels_" ++ convertToLokiCompatibleLabel kv.1) kv.2) lbs
  ge.labels.foldl
    (fun b kv => b.set ("__gcp_labels_" ++ convertToLokiCompatibleLabel kv.1) kv.2) lbs

/-- The internal label list handed to the relabel stage (`lbs.Labels(nil)`). -/
def internalLabels (ge : GCPLogEntry) (otherInternal : List Label) : List Label :=
  (assembleBuilder ge otherInternal).labels

/-- Relabel stage (formatter.go lines 77-82): apply the rules when any are
configured — discarding the keep flag, exactly as the Go code does with
`processed, _ = relabel.Process(...)` — and pass the list through otherwise. -/
def processedLabels (ge : GCPLogEntry) (otherInternal : List Label)
    (relabelConfig : List RelabelCfg) : List Label :=
  if relabelConfig.length > 0 then
    (relabelProcess (internalLabels ge otherInternal) relabelConfig).1
  else internalLabels ge otherInternal

/-- Loop of the final label selection, with an explicit accumulator. -/
def filterValidFold (processed : List Label) (acc : LabelSet) : LabelSet :=
  processed.foldl (fun acc lbl =>
    if goStartsWith lbl.name "__" then acc
    else if !labelNameIsValid lbl.name || !labelValueIsValid lbl.value then acc
    else lsInsert acc lbl.name lbl.value) acc

/-- Final label selection (formatter.go lines 85-96): skip internal ("__") labels,
skip invalid labels, insert the rest into a fresh label set. -/
def filterValidExternal (processed : List Label) : LabelSet := filterValidFold processed []

/-- Finalized labels (formatter.go line 99): merge the scrape-config labels on top
of the selected pipeline labels. -/
def finalizeLabels (processed : List Label) (other : LabelSet) : LabelSet :=
  lsMerge (filterValidExternal processed) other

/-- Timestamp policy (formatter.go lines 104-118): with the flag off, the wall
clock; with it on, parse the timestamp field, falling back to receiveTimestamp
when the former is empty; a parse failure and a zero parsed instant are errors. -/
def resolveTimestamp (parseRFC3339 : String → Option GoTime) (now : GoTime)
    (ge : GCPLogEntry) (useIncomingTimestamp : Bool) : Except FormatterError GoTime :=
  if useIncomingTimestamp then
    let tt := if ge.timestamp = "" then ge.receiveTimestamp else ge.timestamp
    match parseRFC3339 tt with
    | none => .error .invalidTimestampFormat
    | some ts => if ts.isZero then .error .noTimestampFound else .ok ts
  else .ok now

/-- Line policy (formatter.go lines 105 and 120-123): the text payload when the
full line is not requested and the trimmed payload is nonempty; the raw input
bytes as text otherwise. -/
def resolveLine (ge : GCPLogEntry) (data : String) (useFullLine : Bool) : String :=
  if !useFullLine && trimSpace ge.textPayload != "" then ge.textPayload else data

/-- The formatter `parseGCPLogsEntry` (formatter.go lines 53-131). The json
decoder, the RFC3339 parser, and the wall clock are explicit parameters; the
remaining parameters mirror the Go signature. -/
def parseGCPLogsEntry (unmarshal : String → Option GCPLogEntry)
    (parseRFC3339 : String → Option GoTime) (now : GoTime)
    (data : String) (other : LabelSet) (otherInternal : List Label)
    (useIncomingTimestamp useFullLine : Bool) (relabelConfig : List RelabelCfg) :
    Except FormatterError LokiEntry :=
  match unmarshal data with
  | none => .error .decodeError
  | some ge =>
    match resolveTimestamp parseRFC3339 now ge useIncomingTimestamp with
    | .error e => .error e
    | .ok ts =>
      .ok ⟨finalizeLabels (processedLabels ge otherInternal relabelConfig) other,
           ts, resolveLine ge data useFullLine⟩

/-- Concrete wall-clock instant used in the witnesses. -/
def wNow : GoTime := ⟨1, 0⟩

/-- Concrete log entry with every field empty. -/
def wGeEmpty : GCPLogEntry := ⟨"", ⟨"", []⟩, "", "", "", [], ""⟩

/-- Concrete decoder returning the empty entry. -/
def wUmEmpty : String → Option GCPLogEntry := fun _ => some wGeEmpty

/-- Concrete RFC3339 parser that rejects everything (in particular the empty
string, as `time.Parse` does). -/
def wPtNone : String → Option GoTime := fun _ => none

/-- Concrete relabel rule that drops every record. -/
def wDrop : RelabelCfg := fun _ => none

/-- Concrete base internal labels carrying one plain (non-internal) label. -/
def wOiJob : List Label := [⟨"job", "j"⟩]

/-- Concrete base internal labels with two plain labels. -/
def wOi4 : List Label := [⟨"env", "prod"⟩, ⟨"job", "j"⟩]

/-- Concrete caller label set sharing the key "job" with the pipeline. -/
def wOther4 : LabelSet := [("app", "x"), ("job", "caller")]

/-- Concrete entry whose only timestamp is in receiveTimestamp. -/
def wGeRecv : GCPLogEntry := ⟨"", ⟨"", []⟩, "", "2024-01-01T00:00:00Z", "", [], ""⟩

/-- Concrete decoder returning `wGeRecv`. -/
def wUmRecv : String → Option GCPLogEntry := fun _ => some wGeRecv

/-- Concrete nonzero instant for 2024-01-01T00:00:00Z. -/
def wT2024 : GoTime := ⟨63808934400, 0⟩

/-- Concrete RFC3339 parser recognising exactly 2024-01-01T00:00:00Z. -/
def wPt2024 : String → Option GoTime := fun s =>
  if s = "2024-01-01T00:00:00Z" then some wT2024 else none

/-- Concrete entry with a text payload. -/
def wGeText : GCPLogEntry := ⟨"", ⟨"", []⟩, "", "", "", [], "hello"⟩

/-- Concrete decoder returning `wGeText`. -/
def wUmText : String → Option GCPLogEntry := fun _ => some wGeText

/-- Concrete entry whose timestamp field is the zero instant in RFC3339 form. -/
def wGeZeroTs : GCPLogEntry := ⟨"", ⟨"", []⟩, "0001-01-01T00:00:00Z", "", "", [], ""⟩

/-- Concrete decoder returning `wGeZeroTs`. -/
def wUmZeroTs : String → Option GCPLogEntry := fun _ => some wGeZeroTs

/-- The zero instant. -/
def wTZero : GoTime := ⟨0, 0⟩

/-- Concrete RFC3339 parser recognising exactly the zero instant's representation. -/
def wPtZero : String → Option GoTime := fun s =>
  if s = "0001-01-01T00:00:00Z" then some wTZero else none

/-- Concrete entry whose resource labels collide after sanitization. -/
def wGeColl : GCPLogEntry := ⟨"", ⟨"", [("a/b", ""), ("a.b", "x")]⟩, "", "", "", [], ""⟩

/-- Concrete entry with one empty-valued resource label. -/
def wGeR1 : GCPLogEntry := ⟨"", ⟨"", [("a/b", "")]⟩, "", "", "", [], ""⟩

/-- Deletion invariant on a builder: the name is recorded as deleted and absent
from the pending additions, so it cannot appear in the built label list. -/
def PDel (n : String) (b : Builder) : Prop :=
  n ∈ b.del ∧ ∀ a ∈ b.add, a.name ≠ n

/-- Go map lookup after assignment at the same key yields the assigned value. -/
theorem lsGet_insert_self (m : LabelSet) (k v : String) : lsGet (lsInsert m k v) k = some v := by
  induction m with
  | nil => simp [lsInsert, lsGet]
  | cons p rest ih =>
    by_cases h : p.1 = k
    · simp [lsInsert, h, lsGet]
    · simp [lsInsert, h, lsGet, ih]

/-- Go map lookup after assignment at a different key is unchanged. -/
theorem lsGet_insert_ne (m : LabelSet) (k k' v : String) (h : k' ≠ k) :
    lsGet (lsInsert m k' v) k = lsGet m k := by
  induction m with
  | nil => simp [lsInsert, lsGet, h]
  | cons p rest ih =>
    by_cases hp : p.1 = k'
    · simp only [lsInsert, if_pos hp, lsGet]
      rw [if_neg h, if_neg (hp ▸ h)]
    · simp only [lsInsert, if_neg hp, lsGet]
      rw [ih]

/-- Lookup misses exactly the keys that are absent. -/
theorem lsGet_eq_none_iff (m : LabelSet) (k : String) : lsGet m k = none ↔ k ∉ lsKeys m := by
  induction m with
  | nil => simp [lsGet, lsKeys]
  | cons p rest ih =>
    simp only [lsGet, lsKeys, List.map_cons, List.mem_cons]
    by_cases hp : p.1 = k
    · simp [hp]
    · rw [if_neg hp, ih]
      constructor
      · intro h1 h2
        rcases h2 with h2 | h2
        · exact hp h2.symm
        · exact h1 h2
      · intro h1 h2
        exact h1 (Or.inr h2)

/-- A successful lookup witnesses key membership. -/
theorem lsGet_some_mem (m : LabelSet) (k v : String) (h : lsGet m k = some v) :
    k ∈ lsKeys m := by
  by_contra hk
  rw [(lsGet_eq_none_iff m k).2 hk] at h
  cases h

/-- Keys after an assignment: the assigned key or an existing one. -/
theorem mem_keys_insert (m : LabelSet) (k v k' : String)
    (h : k' ∈ lsKeys (lsInsert m k v)) : k' = k ∨ k' ∈ lsKeys m := by
  induction m with
  | nil =>
    simp [lsInsert, lsKeys] at h
    exact Or.inl h
  | cons p rest ih =>
    simp only [lsInsert] at h
    by_cases hp : p.1 = k
    · rw [if_pos hp] at h
      simp only [lsKeys, List.map_cons, List.mem_cons] at h ⊢
      tauto
    · rw [if_neg hp] at h
      simp only [lsKeys, List.map_cons, List.mem_cons] at h ⊢
      rcases h with h | h
      · tauto
      · rcases ih (by simpa [lsKeys] using h) with h1 | h1 <;> tauto

/-- Merging does not touch keys absent from the overlay. -/
theorem lsMerge_get_of_none (l other : LabelSet) (k : String) (h : lsGet other k = none) :
    lsGet (lsMerge l other) k = lsGet l k := by
  induction other generalizing l with
  | nil => rfl
  | cons p rest ih =>
    simp only [lsGet] at h
    by_cases hp : p.1 = k
    · rw [if_pos hp] at h
      cases h
    · rw [if_neg hp] at h
      calc lsGet (lsMerge l (p :: rest)) k
          = lsGet (lsMerge (lsInsert l p.1 p.2) rest) k := rfl
        _ = lsGet (lsInsert l p.1 p.2) k := ih _ h
        _ = lsGet l k := lsGet_insert_ne _ _ _ _ hp

/-- Merging overlays the argument: its bindings win on common keys. -/
theorem lsMerge_get_of_some (l other : LabelSet) (k v : String)
    (hnd : (lsKeys other).Nodup) (h : lsGet other k = some v) :
    lsGet (lsMerge l other) k = some v := by
  induction other generalizing l with
  | nil => cases h
  | cons p rest ih =>
    have hnd' : (p.1 :: lsKeys rest).Nodup := by
      rw [lsKeys, List.map_cons] at hnd
      exact hnd
    have hnd0 := List.nodup_cons.1 hnd'
    simp only [lsGet] at h
    by_cases hp : p.1 = k
    · rw [if_pos hp] at h
      have hknotin : k ∉ lsKeys rest := by
        rw [← hp]
        exact hnd0.1
      have hnone : lsGet rest k = none := (lsGet_eq_none_iff _ _).2 hknotin
      calc lsGet (lsMerge l (p :: rest)) k
          = lsGet (lsMerge (lsInsert l p.1 p.2) rest) k := rfl
        _ = lsGet (lsInsert l p.1 p.2) k := lsMerge_get_of_none _ _ _ hnone
        _ = some v := by rw [hp, lsGet_insert_self, Option.some.inj h]
    · rw [if_neg hp] at h
      calc lsGet (lsMerge l (p :: rest)) k
          = lsGet (lsMerge (lsInsert l p.1 p.2) rest) k := rfl
        _ = some v := ih (lsInsert l p.1 p.2) hnd0.2 h

/-- Every key accumulated by the final-selection loop either passed the two It
skip-checks (not internal, valid) or was already in the accumulator. -/
theorem filterValidFold_keys (processed : List Label) (acc : LabelSet) (k : String)
    (h : k ∈ lsKeys (filterValidFold processed acc)) :
    (goStartsWith k "__" = false ∧ labelNameIsValid k = true) ∨ k ∈ lsKeys acc := by
  induction processed generalizing acc with
  | nil => exact Or.inr h
  | cons lbl tl ih =>
    rw [filterValidFold, List.foldl_cons] at h
    rcases ih _ h with hq | hacc
    · exact Or.inl hq
    · by_cases h1 : goStartsWith lbl.name "__"
      · rw [if_pos h1] at hacc
        exact Or.inr hacc
      · by_cases h2 : (!labelNameIsValid lbl.name || !labelValueIsValid lbl.value) = true
        · rw [if_neg h1, if_pos h2] at hacc
          exact Or.inr hacc
        · rw [if_neg h1, if_neg h2] at hacc
          rcases mem_keys_insert _ _ _ _ hacc with he | hm
          · subst he
            left
            constructor
            · rw [Bool.not_eq_true] at h1
              exact h1
            · rcases Bool.or_eq_false_iff.1 (Bool.not_eq_true _ ▸ h2) with ⟨hv, _⟩
              simpa using hv
          · exact Or.inr hm

/-- Every key of the selected pipeline label set is non-internal and valid. -/
theorem filterValidExternal_keys (processed : List Label) (k : String)
    (h : k ∈ lsKeys (filterValidExternal processed)) :
    goStartsWith k "__" = false ∧ labelNameIsValid k = true := by
  rcases filterValidFold_keys processed [] k h with h1 | h1
  · exact h1
  · cases h1

/-- Membership in an insertion-sorted extension. -/
theorem mem_insertSorted (l x : Label) (xs : List Label) :
    x ∈ insertSorted l xs ↔ x = l ∨ x ∈ xs := by
  induction xs with
  | nil => simp [insertSorted]
  | cons a as ih =>
    simp only [insertSorted]
    split
    · simp [List.mem_cons]
    · simp only [List.mem_cons, ih]
      tauto

/-- Sorting preserves membership. -/
theorem mem_sortLabels (x : Label) (ls : List Label) : x ∈ sortLabels ls ↔ x ∈ ls := by
  induction ls with
  | nil => simp [sortLabels]
  | cons a as ih =>
    rw [sortLabels, List.foldr_cons]
    rw [mem_insertSorted]
    rw [List.mem_cons]
    rw [← sortLabels, ih]

/-- Entries after the Set loop: the written name or a previous entry. -/
theorem setAdd_mem (as : List Label) (n v : String) (a : Label) (h : a ∈ setAdd as n v) :
    a.name = n ∨ a ∈ as := by
  induction as with
  | nil =>
    simp [setAdd] at h
    subst h
    exact Or.inl rfl
  | cons x xs ih =>
    simp only [setAdd] at h
    split at h
    · rcases List.mem_cons.1 h with h1 | h1
      · subst h1
        exact Or.inl rfl
      · exact Or.inr (List.mem_cons_of_mem _ h1)
    · rcases List.mem_cons.1 h with h1 | h1
      · subst h1
        exact Or.inr (List.mem_cons_self _ _)
      · rcases ih h1 with h2 | h2
        · exact Or.inl h2
        · exact Or.inr (List.mem_cons_of_mem _ h2)

/-- Setting a name to the empty value establishes the deletion invariant for it. -/
theorem PDel_set_empty (b : Builder) (n : String) : PDel n (b.set n "") := by
  rw [Builder.set, if_pos rfl, Builder.delete]
  constructor
  · exact List.mem_append_right _ (List.mem_singleton.2 rfl)
  · intro a ha
    have := (List.mem_filter.1 ha).2
    simpa using this

/-- Setting another name, or setting any name to the empty value, preserves the
deletion invariant. -/
theorem PDel_set_pres (b : Builder) (n m v : String) (h : PDel n b)
    (hmv : m ≠ n ∨ v = "") : PDel n (b.set m v) := by
  by_cases hv : v = ""
  · rw [Builder.set, if_pos hv, Builder.delete]
    refine ⟨List.mem_append_left _ h.1, ?_⟩
    intro a ha
    exact h.2 a (List.mem_of_mem_filter ha)
  · have hm : m ≠ n := hmv.resolve_right hv
    rw [Builder.set, if_neg hv]
    refine ⟨h.1, ?_⟩
    intro a ha
    rcases setAdd_mem _ _ _ _ ha with h1 | h1
    · rw [h1]
      exact hm
    · exact h.2 a h1

/-- A Set-loop over key/value pairs preserves the deletion invariant as long as
every written key is different from the protected name or written empty. -/
theorem PDel_foldl_pairs (key : String × String → String) (l : List (String × String))
    (b : Builder) (n : String) (h : PDel n b)
    (hl : ∀ kv ∈ l, key kv ≠ n ∨ kv.2 = "") :
    PDel n (l.foldl (fun b kv => b.set (key kv) kv.2) b) := by
  induction l generalizing b with
  | nil => exact h
  | cons kv tl ih =>
    rw [List.foldl_cons]
    exact ih (b.set (key kv) kv.2)
      (PDel_set_pres _ _ _ _ h (hl kv (List.mem_cons_self _ _)))
      (fun x hx => hl x (List.mem_cons_of_mem _ hx))

/-- A name under the deletion invariant does not occur in the built label list. -/
theorem PDel_not_mem_labels (b : Builder) (n : String) (h : PDel n b) :
    n ∉ labelNames b.labels := by
  obtain ⟨hdel, hadd⟩ := h
  have hne : b.del.isEmpty = false := by
    cases hd : b.del with
    | nil =>
      rw [hd] at hdel
      exact absurd hdel (List.not_mem_nil _)
    | cons a l => rfl
  rw [Builder.labels, hne]
  simp only [Bool.false_and, Bool.false_eq_true, if_false]
  have hres : ∀ l ∈ b.base.filter
      (fun l => !(b.del.contains l.name) && !(b.add.any (fun a => a.name == l.name))),
      l.name ≠ n := by
    intro l hl hname
    have hpred := (List.mem_filter.1 hl).2
    rw [Bool.and_eq_true] at hpred
    have hcont : b.del.contains l.name = false := by
      cases hc : b.del.contains l.name
      · rfl
      · rw [hc] at hpred
        cases hpred.1
    rw [hname] at hcont
    exact absurd hdel (by simpa using hcont)
  split
  · intro hmem
    simp only [labelNames, List.mem_map] at hmem
    obtain ⟨l, hl, hname⟩ := hmem
    exact hres l hl hname
  · intro hmem
    simp only [labelNames, List.mem_map] at hmem
    obtain ⟨l, hl, hname⟩ := hmem
    rw [mem_sortLabels] at hl
    rcases List.mem_append.1 hl with h1 | h1
    · exact hres l h1 hname
    · exact hadd l h1 hname

/-- Concatenation of strings concatenates their character lists. -/
theorem data_append (a b : String) : (a ++ b).data = a.data ++ b.data := by
  cases a
  cases b
  rfl

/-- Two strings with different leading characters stay different after appending
to the first. -/
theorem append_ne_lit (p x q : String) (n : Nat) (hp : n ≤ p.data.length)
    (hne : p.data.take n ≠ q.data.take n) : p ++ x ≠ q := by
  intro h
  apply hne
  have hd := congrArg String.data h
  rw [data_append] at hd
  calc p.data.take n = (p.data ++ x.data).take n := (List.take_append_of_le_length hp).symm
    _ = q.data.take n := by rw [hd]

/-- Two strings with different leading characters stay different after appending
to both. -/
theorem append_ne_append (p q x y : String) (n : Nat) (hp : n ≤ p.data.length)
    (hq : n ≤ q.data.length) (hne : p.data.take n ≠ q.data.take n) : p ++ x ≠ q ++ y := by
  intro h
  apply hne
  have hd := congrArg String.data h
  rw [data_append, data_append] at hd
  calc p.data.take n = (p.data ++ x.data).take n := (List.take_append_of_le_length hp).symm
    _ = (q.data ++ y.data).take n := by rw [hd]
    _ = q.data.take n := List.take_append_of_le_length hq

/-- Appending to a fixed string is injective. -/
theorem append_cancel_left_str (p a b : String) (h : p ++ a = p ++ b) : a = b := by
  have hd := congrArg String.data h
  rw [data_append, data_append] at hd
  have h2 := List.append_cancel_left hd
  exact congrArg String.mk h2

/-- Shape of every successful run of the formatter: the decoder accepted the
input, the timestamp resolved, and the entry is built from the three stages. -/
theorem parse_ok_inv (unmarshal : String → Option GCPLogEntry)
    (parseRFC3339 : String → Option GoTime) (now : GoTime) (data : String)
    (other : LabelSet) (otherInternal : List Label) (uit ufl : Bool)
    (cfgs : List RelabelCfg) (e : LokiEntry)
    (h : parseGCPLogsEntry unmarshal parseRFC3339 now data other otherInternal uit ufl cfgs =
      .ok e) :
    ∃ ge ts, unmarshal data = some ge ∧
      resolveTimestamp parseRFC3339 now ge uit = .ok ts ∧
      e = ⟨finalizeLabels (processedLabels ge otherInternal cfgs) other, ts,
           resolveLine ge data ufl⟩ := by
  unfold parseGCPLogsEntry at h
  split at h
  · cases h
  · rename_i ge hum
    split at h
    · cases h
    · rename_i ts hts
      cases h
      exact ⟨ge, ts, hum, hts, rfl⟩

/-- C2 (counterexample): the claim that no output label name starts with "__"
fails as stated, because the caller-supplied label set is merged in unchecked:
with caller label "__x" the returned record contains it. -/
theorem c2_cex :
    parseGCPLogsEntry wUmEmpty wPtNone wNow "d" [("__x", "y")] [] false false [] =
      .ok ⟨[("__x", "y")], wNow, "d"⟩ ∧ goStartsWith "__x" "__" = true :=
  ⟨rfl, rfl⟩

/-- C2 (amended): whenever the transform returns a normalized record, every label
of the output whose key is not in the caller-supplied set has a name that does
not start with the reserved internal marker "__"; only caller-supplied keys can
carry the marker. -/
theorem c2_amended (unmarshal : String → Option GCPLogEntry)
    (parseRFC3339 : String → Option GoTime) (now : GoTime) (data : String)
    (other : LabelSet) (otherInternal : List Label) (uit ufl : Bool)
    (cfgs : List RelabelCfg) (e : LokiEntry) (k v : String)
    (h : parseGCPLogsEntry unmarshal parseRFC3339 now data other otherInternal uit ufl cfgs =
      .ok e)
    (hk : lsGet e.labels k = some v) (ho : lsGet other k = none) :
    goStartsWith k "__" = false := by
  obtain ⟨ge, ts, hum, hts, he⟩ := parse_ok_inv _ _ _ _ _ _ _ _ _ _ h
  have hk' : lsGet (lsMerge (filterValidExternal (processedLabels ge otherInternal cfgs))
      other) k = some v := by
    rw [he] at hk
    exact hk
  rw [lsMerge_get_of_none _ _ _ ho] at hk'
  exact (filterValidExternal_keys _ _ (lsGet_some_mem _ _ _ hk')).1

/-- C2 (witness): a plain base label survives to the output and its name indeed
does not start with the internal marker. -/
theorem c2_witness :
    lsGet (finalizeLabels (processedLabels wGeEmpty wOiJob []) []) "job" = some "j" ∧
      goStartsWith "job" "__" = false :=
  ⟨rfl, c2_amended wUmEmpty wPtNone wNow "d" [] wOiJob false false []
    ⟨finalizeLabels (processedLabels wGeEmpty wOiJob []) [], wNow,
     resolveLine wGeEmpty "d" false⟩ "job" "j" rfl rfl rfl⟩

/-- C7 (counterexample): the claim that every output label name satisfies the
backend validity grammar fails as stated, because caller-supplied labels are
merged without validation: a caller key starting with a digit reaches the
output although the name check rejects it. -/
theorem c7_cex :
    parseGCPLogsEntry wUmEmpty wPtNone wNow "d" [("1bad", "v")] [] false false [] =
      .ok ⟨[("1bad", "v")], wNow, "d"⟩ ∧ labelNameIsValid "1bad" = false :=
  ⟨rfl, rfl⟩

/-- C7 (amended): whenever the transform returns a normalized record, every
output label whose key is not caller-supplied has a valid name and a valid
value under the backend rules; invalid entries of the relabeled list are
silently dropped rather than reported, so they never cause an error. -/
theorem c7_amended (unmarshal : String → Option GCPLogEntry)
    (parseRFC3339 : String → Option GoTime) (now : GoTime) (data : String)
    (other : LabelSet) (otherInternal : List Label) (uit ufl : Bool)
    (cfgs : List RelabelCfg) (e : LokiEntry) (k v : String)
    (h : parseGCPLogsEntry unmarshal parseRFC3339 now data other otherInternal uit ufl cfgs =
      .ok e)
    (hk : lsGet e.labels k = some v) (ho : lsGet other k = none) :
    labelNameIsValid k = true ∧ labelValueIsValid v = true := by
  obtain ⟨ge, ts, hum, hts, he⟩ := parse_ok_inv _ _ _ _ _ _ _ _ _ _ h
  have hk' : lsGet (lsMerge (filterValidExternal (processedLabels ge otherInternal cfgs))
      other) k = some v := by
    rw [he] at hk
    exact hk
  rw [lsMerge_get_of_none _ _ _ ho] at hk'
  exact ⟨(filterValidExternal_keys _ _ (lsGet_some_mem _ _ _ hk')).2, rfl⟩

/-- C7 (witness): a surviving pipeline label has a valid name and value. -/
theorem c7_witness :
    labelNameIsValid "job" = true ∧ labelValueIsValid "j" = true :=
  c7_amended wUmEmpty wPtNone wNow "d" [] wOiJob false false []
    ⟨finalizeLabels (processedLabels wGeEmpty wOiJob []) [], wNow,
     resolveLine wGeEmpty "d" false⟩ "job" "j" rfl rfl rfl

/-- C4: whenever the transform returns a normalized record, every key of the
caller-supplied static label set maps to the caller-supplied value in the
output (caller wins on keys present in both sets, and caller-only keys are
kept), while keys absent from the caller set keep their pipeline-derived
binding. -/
theorem c4_caller_precedence (unmarshal : String → Option GCPLogEntry)
    (parseRFC3339 : String → Option GoTime) (now : GoTime) (data : String)
    (other : LabelSet) (otherInternal : List Label) (uit ufl : Bool)
    (cfgs : List RelabelCfg) (ge : GCPLogEntry) (e : LokiEntry)
    (hum : unmarshal data = some ge)
    (h : parseGCPLogsEntry unmarshal parseRFC3339 now data other otherInternal uit ufl cfgs =
      .ok e)
    (hnd : (lsKeys other).Nodup) :
    (∀ k v, lsGet other k = some v → lsGet e.labels k = some v) ∧
    (∀ k, lsGet other k = none →
      lsGet e.labels k = lsGet (filterValidExternal (processedLabels ge otherInternal cfgs)) k) := by
  obtain ⟨ge', ts, hum', hts, he⟩ := parse_ok_inv _ _ _ _ _ _ _ _ _ _ h
  rw [hum] at hum'
  cases hum'
  constructor
  · intro k v hv
    rw [he]
    exact lsMerge_get_of_some _ _ _ _ hnd hv
  · intro k hk0
    rw [he]
    exact lsMerge_get_of_none _ _ _ hk0

/-- C4 (witness): the caller binding of "job" overrides the pipeline one, and the
pipeline-only key "env" keeps its pipeline binding. -/
theorem c4_witness :
    lsGet (finalizeLabels (processedLabels wGeEmpty wOi4 []) wOther4) "job" = some "caller" ∧
      lsGet (finalizeLabels (processedLabels wGeEmpty wOi4 []) wOther4) "env" =
        lsGet (filterValidExternal (processedLabels wGeEmpty wOi4 [])) "env" :=
  ⟨(c4_caller_precedence wUmEmpty wPtNone wNow "d" wOther4 wOi4 false false [] wGeEmpty
      ⟨finalizeLabels (processedLabels wGeEmpty wOi4 []) wOther4, wNow,
       resolveLine wGeEmpty "d" false⟩ rfl rfl (by decide)).1 "job" "caller" rfl,
   (c4_caller_precedence wUmEmpty wPtNone wNow "d" wOther4 wOi4 false false [] wGeEmpty
      ⟨finalizeLabels (processedLabels wGeEmpty wOi4 []) wOther4, wNow,
       resolveLine wGeEmpty "d" false⟩ rfl rfl (by decide)).2 "env" rfl⟩

/-- C6: whenever the transform returns a record, the output line is the text
payload exactly when the full line was not requested and the trimmed payload is
nonempty, and the raw input bytes as text in every other case. -/
theorem c6_line_policy (unmarshal : String → Option GCPLogEntry)
    (parseRFC3339 : String → Option GoTime) (now : GoTime) (data : String)
    (other : LabelSet) (otherInternal : List Label) (uit ufl : Bool)
    (cfgs : List RelabelCfg) (ge : GCPLogEntry) (e : LokiEntry)
    (hum : unmarshal data = some ge)
    (h : parseGCPLogsEntry unmarshal parseRFC3339 now data other otherInternal uit ufl cfgs =
      .ok e) :
    (ufl = false → trimSpace ge.textPayload ≠ "" → e.line = ge.textPayload) ∧
    ((ufl = true ∨ trimSpace ge.textPayload = "") → e.line = data) := by
  obtain ⟨ge', ts, hum', hts, he⟩ := parse_ok_inv _ _ _ _ _ _ _ _ _ _ h
  rw [hum] at hum'
  cases hum'
  have hline : e.line = resolveLine ge data ufl := by
    rw [he]
  constructor
  · intro h1 h2
    rw [hline, resolveLine, h1]
    simp [h2]
  · intro h12
    rw [hline, resolveLine]
    rcases h12 with h1 | h1
    · simp [h1]
    · simp [h1]

/-- C6 (witness): with use-full-line off and payload "hello", the line is
"hello". -/
theorem c6_witness : resolveLine wGeText "d" false = "hello" :=
  (c6_line_policy wUmText wPtNone wNow "d" [] [] false false [] wGeText
    ⟨finalizeLabels (processedLabels wGeText [] []) [], wNow, resolveLine wGeText "d" false⟩
    rfl rfl).1 rfl (by decide)

/-- C9: with an empty relabel rule set, the label list passed to the finalizer is
exactly the assembled internal label list (identity pass-through of the relabel
stage). -/
theorem c9_empty_rules_identity (ge : GCPLogEntry) (otherInternal : List Label) :
    processedLabels ge otherInternal [] = internalLabels ge otherInternal := by
  simp [processedLabels]

/-- C1 (counterexample): a rule set that drops every record does not make the
transform short-circuit with a drop signal; it still returns a normal output
record (carrying only the caller-supplied labels). -/
theorem c1_cex :
    parseGCPLogsEntry wUmEmpty wPtNone wNow "raw" [("app", "x")] [] false false [wDrop] =
      .ok ⟨[("app", "x")], wNow, "raw"⟩ := rfl

/-- C1 (amended): when the relabel rules signal a drop, the formatter discards
the signal (it ignores the keep flag of relabel.Process), continues with the
empty relabeled list, and — when timestamp resolution succeeds, e.g. with the
adopt-incoming-timestamp flag off — returns a normal record whose label set is
just the caller-supplied labels; no drop-distinguishable signal exists among
its error kinds. -/
theorem c1_drop_ignored (unmarshal : String → Option GCPLogEntry)
    (parseRFC3339 : String → Option GoTime) (now : GoTime) (data : String)
    (other : LabelSet) (otherInternal : List Label) (ufl : Bool)
    (cfgs : List RelabelCfg) (ge : GCPLogEntry)
    (hum : unmarshal data = some ge) (hcfg : cfgs ≠ [])
    (hdrop : relabelApplyAll cfgs (internalLabels ge otherInternal) = none) :
    parseGCPLogsEntry unmarshal parseRFC3339 now data other otherInternal false ufl cfgs =
      .ok ⟨finalizeLabels [] other, now, resolveLine ge data ufl⟩ := by
  have hp : processedLabels ge otherInternal cfgs = [] := by
    rw [processedLabels, if_pos (List.length_pos.2 hcfg), relabelProcess, hdrop]
  unfold parseGCPLogsEntry
  rw [hum]
  unfold resolveTimestamp
  simp only [Bool.false_eq_true, if_false]
  rw [hp]

/-- C1 (witness): the amended statement at a concrete dropping rule set. -/
theorem c1_witness :
    parseGCPLogsEntry wUmEmpty wPtNone wNow "raw" [("app", "x")] [] false false [wDrop] =
      .ok ⟨finalizeLabels [] [("app", "x")], wNow, resolveLine wGeEmpty "raw" false⟩ :=
  c1_drop_ignored wUmEmpty wPtNone wNow "raw" [("app", "x")] [] false [wDrop] wGeEmpty
    rfl (List.cons_ne_nil _ _) rfl

/-- C3 (counterexample): with adopt-incoming-timestamp on and both timestamp
fields empty, the call fails with the timestamp-parse error kind, not with the
missing-timestamp kind the claim demands. -/
theorem c3_cex :
    parseGCPLogsEntry wUmEmpty wPtNone wNow "d" [] [] true false [] =
      .error .invalidTimestampFormat ∧
      FormatterError.invalidTimestampFormat ≠ FormatterError.noTimestampFound :=
  ⟨rfl, by decide⟩

/-- C3 (amended): if adopt-incoming-timestamp is true and both the timestamp and
receiveTimestamp fields are empty, the call produces no output record and fails
with the timestamp-parse error kind ("invalid timestamp format"), since the
empty string fails RFC3339 parsing; the missing-timestamp kind is reserved for
a successfully parsed zero instant. -/
theorem c3_empty_fields_parse_error (unmarshal : String → Option GCPLogEntry)
    (parseRFC3339 : String → Option GoTime) (now : GoTime) (data : String)
    (other : LabelSet) (otherInternal : List Label) (ufl : Bool)
    (cfgs : List RelabelCfg) (ge : GCPLogEntry)
    (hum : unmarshal data = some ge) (ht : ge.timestamp = "")
    (hrt : ge.receiveTimestamp = "") (hp : parseRFC3339 "" = none) :
    parseGCPLogsEntry unmarshal parseRFC3339 now data other otherInternal true ufl cfgs =
      .error .invalidTimestampFormat := by
  unfold parseGCPLogsEntry
  rw [hum]
  unfold resolveTimestamp
  simp only [if_true]
  rw [ht, hrt]
  simp [hp]

/-- C3 (witness): the amended statement at concrete inputs. -/
theorem c3_witness :
    parseGCPLogsEntry wUmEmpty wPtNone wNow "d" [] [] true false [] =
      .error .invalidTimestampFormat :=
  c3_empty_fields_parse_error wUmEmpty wPtNone wNow "d" [] [] false [] wGeEmpty
    rfl rfl rfl rfl

/-- C5: if adopt-incoming-timestamp is true, the timestamp field is empty, and
receiveTimestamp parses to a nonzero instant, the returned record's timestamp
is that instant. -/
theorem c5_receive_timestamp_fallback (unmarshal : String → Option GCPLogEntry)
    (parseRFC3339 : String → Option GoTime) (now : GoTime) (data : String)
    (other : LabelSet) (otherInternal : List Label) (ufl : Bool)
    (cfgs : List RelabelCfg) (ge : GCPLogEntry) (t : GoTime)
    (hum : unmarshal data = some ge) (ht : ge.timestamp = "")
    (hp : parseRFC3339 ge.receiveTimestamp = some t) (hz : t.isZero = false) :
    ∃ e, parseGCPLogsEntry unmarshal parseRFC3339 now data other otherInternal true ufl cfgs =
      .ok e ∧ e.timestamp = t := by
  refine ⟨⟨finalizeLabels (processedLabels ge otherInternal cfgs) other, t,
    resolveLine ge data ufl⟩, ?_, rfl⟩
  unfold parseGCPLogsEntry
  rw [hum]
  unfold resolveTimestamp
  simp only [if_true]
  rw [ht]
  simp [hp, hz]

/-- C5 (witness): with receiveTimestamp 2024-01-01T00:00:00Z the output carries
the corresponding instant. -/
theorem c5_witness :
    ∃ e, parseGCPLogsEntry wUmRecv wPt2024 wNow "d" [] [] true false [] = .ok e ∧
      e.timestamp = wT2024 :=
  c5_receive_timestamp_fallback wUmRecv wPt2024 wNow "d" [] [] false [] wGeRecv wT2024
    rfl rfl rfl rfl

/-- C8: if adopt-incoming-timestamp is true and the selected timestamp string
parses to the zero instant, the call produces no output record and fails with
the no-usable-timestamp error. -/
theorem c8_zero_instant_error (unmarshal : String → Option GCPLogEntry)
    (parseRFC3339 : String → Option GoTime) (now : GoTime) (data : String)
    (other : LabelSet) (otherInternal : List Label) (ufl : Bool)
    (cfgs : List RelabelCfg) (ge : GCPLogEntry) (t : GoTime)
    (hum : unmarshal data = some ge)
    (hp : parseRFC3339 (if ge.timestamp = "" then ge.receiveTimestamp else ge.timestamp) =
      some t)
    (hz : t.isZero = true) :
    parseGCPLogsEntry unmarshal parseRFC3339 now data other otherInternal true ufl cfgs =
      .error .noTimestampFound := by
  unfold parseGCPLogsEntry
  rw [hum]
  unfold resolveTimestamp
  simp only [if_true]
  rw [hp]
  simp [hz]

/-- C8 (witness): a record carrying 0001-01-01T00:00:00Z fails with the
no-usable-timestamp error. -/
theorem c8_witness :
    parseGCPLogsEntry wUmZeroTs wPtZero wNow "d" [] [] true false [] =
      .error .noTimestampFound :=
  c8_zero_instant_error wUmZeroTs wPtZero wNow "d" [] [] false [] wGeZeroTs wTZero
    rfl rfl rfl

/-- C10 (counterexample): the claim that an empty-valued map entry leaves its
internal label absent fails as stated when two distinct keys sanitize to the
same label name: with resource labels "a/b" (empty) iterated before "a.b"
(value "x"), the label __gcp_resource_labels_a_b is present. -/
theorem c10_cex :
    "__gcp_resource_labels_a_b" ∈ labelNames (internalLabels wGeColl []) := by
  decide

/-- C10 (amended): an empty logName, resource type, or severity leaves the
corresponding internal label absent from the list handed to the relabel engine
(deleting any same-named label inherited from the base set), and an
empty-valued resourceLabels or entryLabels entry likewise leaves its sanitized
internal label absent provided every later entry of the same map whose key
sanitizes to the same name is also empty-valued. -/
theorem c10_empty_value_deletes (ge : GCPLogEntry) (base : List Label) :
    (ge.logName = "" → "__gcp_logname" ∉ labelNames (internalLabels ge base)) ∧
    (ge.resource.type = "" → "__gcp_resource_type" ∉ labelNames (internalLabels ge base)) ∧
    (ge.severity = "" → "__gcp_severity" ∉ labelNames (internalLabels ge base)) ∧
    (∀ k l₁ l₂, ge.resource.labels = l₁ ++ (k, "") :: l₂ →
      (∀ kv ∈ l₂, convertToLokiCompatibleLabel kv.1 = convertToLokiCompatibleLabel k →
        kv.2 = "") →
      ("__gcp_resource_labels_" ++ convertToLokiCompatibleLabel k) ∉
        labelNames (internalLabels ge base)) ∧
    (∀ k l₁ l₂, ge.labels = l₁ ++ (k, "") :: l₂ →
      (∀ kv ∈ l₂, convertToLokiCompatibleLabel kv.1 = convertToLokiCompatibleLabel k →
        kv.2 = "") →
      ("__gcp_labels_" ++ convertToLokiCompatibleLabel k) ∉
        labelNames (internalLabels ge base)) := by
  refine ⟨?_, ?_, ?_, ?_, ?_⟩
  · intro h1
    apply PDel_not_mem_labels
    simp only [internalLabels, assembleBuilder, h1]
    exact PDel_foldl_pairs _ ge.labels _ _
      (PDel_foldl_pairs _ ge.resource.labels _ _
        (PDel_set_pres _ _ _ _
          (PDel_set_pres _ _ _ _ (PDel_set_empty _ _) (Or.inl (by decide)))
          (Or.inl (by decide)))
        (fun kv hkv =>
          Or.inl (append_ne_lit "__gcp_resource_labels_" _ "__gcp_logname" 7
            (by decide) (by decide))))
      (fun kv hkv =>
        Or.inl (append_ne_lit "__gcp_labels_" _ "__gcp_logname" 8 (by decide) (by decide)))
  · intro h1
    apply PDel_not_mem_labels
    simp only [internalLabels, assembleBuilder, h1]
    exact PDel_foldl_pairs _ ge.labels _ _
      (PDel_foldl_pairs _ ge.resource.labels _ _
        (PDel_set_pres _ _ _ _ (PDel_set_empty _ _) (Or.inl (by decide)))
        (fun kv hkv =>
          Or.inl (append_ne_lit "__gcp_resource_labels_" _ "__gcp_resource_type" 16
            (by decide) (by decide))))
      (fun kv hkv =>
        Or.inl (append_ne_lit "__gcp_labels_" _ "__gcp_resource_type" 7
          (by decide) (by decide)))
  · intro h1
    apply PDel_not_mem_labels
    simp only [internalLabels, assembleBuilder, h1]
    exact PDel_foldl_pairs _ ge.labels _ _
      (PDel_foldl_pairs _ ge.resource.labels _ _
        (PDel_set_empty _ _)
        (fun kv hkv =>
          Or.inl (append_ne_lit "__gcp_resource_labels_" _ "__gcp_severity" 7
            (by decide) (by decide))))
      (fun kv hkv =>
        Or.inl (append_ne_lit "__gcp_labels_" _ "__gcp_severity" 7 (by decide) (by decide)))
  · intro k l₁ l₂ hsplit hlater
    apply PDel_not_mem_labels
    simp only [internalLabels, assembleBuilder, hsplit]
    simp only [List.foldl_append, List.foldl_cons]
    exact PDel_foldl_pairs _ ge.labels _ _
      (PDel_foldl_pairs _ l₂ _ _
        (PDel_set_empty _ _)
        (fun kv hkv => by
          by_cases hc : convertToLokiCompatibleLabel kv.1 = convertToLokiCompatibleLabel k
          · exact Or.inr (hlater kv hkv hc)
          · exact Or.inl (fun h => hc (append_cancel_left_str _ _ _ h))))
      (fun kv hkv =>
        Or.inl (append_ne_append "__gcp_labels_" "__gcp_resource_labels_" _ _ 7
          (by decide) (by decide) (by decide)))
  · intro k l₁ l₂ hsplit hlater
    apply PDel_not_mem_labels
    simp only [internalLabels, assembleBuilder, hsplit]
    simp only [List.foldl_append, List.foldl_cons]
    exact PDel_foldl_pairs _ l₂ _ _
      (PDel_set_empty _ _)
      (fun kv hkv => by
        by_cases hc : convertToLokiCompatibleLabel kv.1 = convertToLokiCompatibleLabel k
        · exact Or.inr (hlater kv hkv hc)
        · exact Or.inl (fun h => hc (append_cancel_left_str _ _ _ h)))

/-- C10 (witness): a record whose single resource label has an empty value leaves
the corresponding internal label absent. -/
theorem c10_witness :
    ("__gcp_resource_labels_" ++ convertToLokiCompatibleLabel "a/b") ∉
      labelNames (internalLabels wGeR1 []) :=
  (c10_empty_value_deletes wGeR1 []).2.2.2.1 "a/b" [] [] rfl
    (fun kv hkv _ => absurd hkv (List.not_mem_nil kv))

end Gcplog
